import Mathlib

/-!
Shallow embedding of the job-control shell in `src/main.cpp` and proofs about
the frozen claims of its specification.

The program is a single C++ file.  Pure parts (tokenisation into pipeline
stages, job-table lookups, `fg`/`bg` job-reference resolution, the main-loop
builtin dispatch) are translated directly into Lean functions.  The parts that
interact with the operating system (`pipe`, `fork`, `waitpid`, `getpgid`,
`tcsetpgrp`, `kill`, signal delivery) are modelled with explicit oracles and
event traces: every syscall result the shell branches on is an input to the
embedded function, and every outwardly visible effect the shell performs
(printing, terminal-ownership changes, signal sends, blocking waits) is
recorded as an `Action` in an output list, in program order.
-/

namespace Shell

/-- Job status, from `enum JobStatus { RUNNING, STOPPED, DONE }`. -/
inductive JobStatus
  | RUNNING
  | STOPPED
  | DONE
deriving DecidableEq, Repr

/-- One job-table entry, from `struct Job { int jid; pid_t pgid; string cmd; JobStatus status; }`.
`jid` and `pgid` are C `int`/`pid_t`; they are modelled as unbounded `Int`
(the shell assigns small positive values). -/
structure Job where
  jid : Int
  pgid : Int
  cmd : String
  status : JobStatus
deriving DecidableEq, Repr

/-- One pipeline stage, from
`struct Command { vector<string> argv; string infile; string outfile; bool append = false; }`.
The C++ strings default-construct to `""`. -/
structure Command where
  argv : List String
  infile : String
  outfile : String
  append : Bool
deriving DecidableEq, Repr

/-- The empty stage produced by `cmds.emplace_back()` in `buildCommands`. -/
def Command.emptyStage : Command := ⟨[], "", "", false⟩

/-- The shell's mutable globals: `vector<Job> jobs`, `int next_jid`,
`volatile sig_atomic_t child_terminated`. -/
structure ShellState where
  jobs : List Job
  next_jid : Int
  child_terminated : Bool
deriving DecidableEq, Repr

/-- Externally visible effects of the shell process, one constructor per
side-effecting statement of the source, carrying the printed fields /
syscall arguments.  Format strings of the corresponding `cout` lines are
given in the comments. -/
inductive Action
  | printStarted (jid pgid : Int)                                -- "[jid] pgid Started"
  | printStoppedNotice (jid pgid : Int) (cmd : String)           -- "\n[jid] pgid Stopped    cmd"
  | printDoneNotice (jid pgid : Int) (cmd : String)              -- "\n[jid] pgid Done    cmd"
  | printContinuedNotice (jid pgid : Int) (cmd : String)         -- "\n[jid] pgid Continued    cmd"
  | printContinuedBg (jid pgid : Int)                            -- "[jid] pgid Continued in background"
  | printJobLine (jid pgid : Int) (status : JobStatus) (cmd : String)  -- one `jobs` listing line
  | errNoSuchJob (which : String)                                -- cerr << which << ": no such job"
  | perrorA (what : String)                                      -- perror(what)
  | tcsetpgrpA (g : Int)                                         -- tcsetpgrp(STDIN_FILENO, g)
  | tcgetattrA                                                   -- tcgetattr(STDIN_FILENO, &shell_tmodes)
  | setpgidA (pid pgid : Int)                                    -- setpgid(pid, pgid) in the parent
  | killGroupA (g : Int) (sig : String)                          -- kill(-g, sig)
  | waitGroupA (g : Int)                                         -- one blocking waitpid(-g, ..., WUNTRACED) call
  | chdirA (path : String)                                       -- chdir(path)
  | exitA (code : Int)                                           -- exit(code)
deriving DecidableEq, Repr

/-- Outcome of one blocking `waitpid(-pgid, &status, WUNTRACED)` call in a
foreground wait loop, as the shell branches on it. -/
inductive WaitRes
  | stopped     -- wpid > 0 and WIFSTOPPED(status)
  | exited      -- wpid > 0 and (WIFEXITED(status) || WIFSIGNALED(status))
  | echild      -- wpid < 0 and errno == ECHILD
  | eintr       -- wpid < 0 and errno == EINTR
  | err         -- wpid < 0, any other errno
deriving DecidableEq, Repr

/-- Kind of one state change reaped by the non-blocking
`waitpid(-1, &status, WNOHANG | WUNTRACED | WCONTINUED)` loop in `update_jobs`. -/
inductive ReapKind
  | exited      -- WIFEXITED || WIFSIGNALED
  | stopped     -- WIFSTOPPED
  | continued   -- WIFCONTINUED
deriving DecidableEq, Repr

/- ------------------------------------------------------------------
   Command Builder (`buildCommands`, src/main.cpp lines 126-157)
   ------------------------------------------------------------------ -/

/-- The token-consuming loop of `buildCommands`.  The C++ code keeps the
stage under construction as `cmds.back()`; here the completed stages are
`done` and the stage under construction is `cur`, so the C++ `cmds`
corresponds to `done ++ [cur]` at every loop entry.  A redirection operator
with a following token consumes that token (`tokens[++i]`); a trailing
operator with no following token is dropped. -/
def buildCommandsAux (done : List Command) (cur : Command) : List String → List Command
  | [] => done ++ [cur]
  | tk :: rest =>
    if tk = "|" then
      buildCommandsAux (done ++ [cur]) Command.emptyStage rest
    else if tk = "<" then
      match rest with
      | [] => done ++ [cur]
      | f :: r2 => buildCommandsAux done { cur with infile := f } r2
    else if tk = ">" then
      match rest with
      | [] => done ++ [cur]
      | f :: r2 => buildCommandsAux done { cur with outfile := f, append := false } r2
    else if tk = ">>" then
      match rest with
      | [] => done ++ [cur]
      | f :: r2 => buildCommandsAux done { cur with outfile := f, append := true } r2
    else
      buildCommandsAux done { cur with argv := cur.argv ++ [tk] } rest

/-- The stage list before the trailing-empty-stage removal (the state of the
C++ `cmds` vector after the loop). -/
def buildCommandsRaw (tokens : List String) : List Command :=
  buildCommandsAux [] Command.emptyStage tokens

/-- `buildCommands`: run the loop, then
`if (!cmds.empty() && back.argv.empty() && back.infile.empty() && back.outfile.empty()) pop_back()`. -/
def buildCommands (tokens : List String) : List Command :=
  match (buildCommandsRaw tokens).getLast? with
  | some c =>
      if c.argv = [] ∧ c.infile = "" ∧ c.outfile = "" then
        (buildCommandsRaw tokens).dropLast
      else buildCommandsRaw tokens
  | none => buildCommandsRaw tokens

/-- Specification-side scanner for one stage's input redirections: the operand
of every *recognised* `<` operator, in order.  An operator token that was
consumed as the operand of a preceding redirection operator is not itself an
operator occurrence.  (Second definition, following the claim's words, for
comparison with `buildCommands`.) -/
def specInFiles : List String → List String
  | [] => []
  | tk :: rest =>
    if tk = "<" then
      match rest with
      | [] => []
      | f :: r2 => f :: specInFiles r2
    else if tk = ">" ∨ tk = ">>" then
      match rest with
      | [] => []
      | _ :: r2 => specInFiles r2
    else specInFiles rest

/-- Specification-side scanner for one stage's output redirections: the
operand and append flag of every recognised `>` / `>>` operator, in order. -/
def specOutFiles : List String → List (String × Bool)
  | [] => []
  | tk :: rest =>
    if tk = ">" then
      match rest with
      | [] => []
      | f :: r2 => (f, false) :: specOutFiles r2
    else if tk = ">>" then
      match rest with
      | [] => []
      | f :: r2 => (f, true) :: specOutFiles r2
    else if tk = "<" then
      match rest with
      | [] => []
      | _ :: r2 => specOutFiles r2
    else specOutFiles rest

/- ------------------------------------------------------------------
   Job Table (src/main.cpp lines 61-92)
   ------------------------------------------------------------------ -/

/-- `find_job_by_jid`: first entry with the given job id (the C++ loop
returns the first match). -/
def find_job_by_jid (jobs : List Job) (jid : Int) : Option Job :=
  jobs.find? (fun j => j.jid = jid)

/-- `find_job_by_pgid`: first entry with the given process-group id. -/
def find_job_by_pgid (jobs : List Job) (pgid : Int) : Option Job :=
  jobs.find? (fun j => j.pgid = pgid)

/-- `find_job_by_pid`: `getpgid(pid)`, failure (negative return) gives no
match, otherwise look up by the returned group.  `getpgid` is an OS query
and is passed in as the oracle `pg : Int → Option Int` (`none` = error). -/
def find_job_by_pid (jobs : List Job) (pg : Int → Option Int) (pid : Int) : Option Job :=
  match pg pid with
  | none => none
  | some g => find_job_by_pgid jobs g

/-- `remove_job_by_pgid`: `erase/remove_if` deletes every entry of that group. -/
def remove_job_by_pgid (jobs : List Job) (pgid : Int) : List Job :=
  jobs.filter (fun j => j.pgid ≠ pgid)

/-- In-place mutation through a pointer obtained from a `find_job_by_*`
lookup (`j->status = ...`): update the first entry satisfying `p`. -/
def update_first (p : Job → Bool) (f : Job → Job) : List Job → List Job
  | [] => []
  | j :: rest => if p j then f j :: rest else j :: update_first p f rest

/-- The status write `j->status = s` through a pointer found by group id:
update the first entry of that group. -/
def setStatusByPgid (g : Int) (s : JobStatus) (jobs : List Job) : List Job :=
  update_first (fun x => x.pgid = g) (fun x => { x with status := s }) jobs

/-- The status write `target->status = s` through a pointer found by job id
(job ids are unique in the table: they are assigned from the monotonically
increasing `next_jid`): update the first entry with that id. -/
def setStatusByJid (jid : Int) (s : JobStatus) (jobs : List Job) : List Job :=
  update_first (fun x => x.jid = jid) (fun x => { x with status := s }) jobs

/-- The `jobs` builtin output (`print_jobs`), one structured line per entry. -/
def printJobsLines (jobs : List Job) : List Action :=
  jobs.map (fun j => Action.printJobLine j.jid j.pgid j.status j.cmd)

/- ------------------------------------------------------------------
   C `atoi` on the shell's whitespace-free tokens
   ------------------------------------------------------------------ -/

/-- Value of the leading decimal digits of a character list (the digit-consuming
loop of C `atoi`); stops at the first non-digit. -/
def digitsVal : List Char → Nat → Nat
  | [], acc => acc
  | c :: rest, acc =>
    if '0' ≤ c ∧ c ≤ '9' then digitsVal rest (acc * 10 + (c.toNat - 48)) else acc

/-- C `atoi` on a token (tokens come from `operator>>` and contain no
whitespace, so the leading-whitespace skip is irrelevant): optional sign,
then leading digits, `0` if none. -/
def atoiL : List Char → Int
  | '-' :: rest => -(digitsVal rest 0 : Int)
  | '+' :: rest => (digitsVal rest 0 : Int)
  | l => (digitsVal l 0 : Int)

/-- The `all_digits` loop in `main` (`c < '0' || c > '9'` clears the flag);
an empty token leaves the flag `true`. -/
def allDigitsL (cs : List Char) : Bool :=
  cs.all (fun c => '0' ≤ c ∧ c ≤ '9')

/- ------------------------------------------------------------------
   Signal/Reap Coordinator (src/main.cpp lines 19-23, 95-124, 352-357)
   ------------------------------------------------------------------ -/

/-- `sigchld_handler`: the notification context only sets the async-safe flag. -/
def sigchld_handler (st : ShellState) : ShellState :=
  { st with child_terminated := true }

/-- `sa.sa_flags = SA_RESTART | SA_NOCLDSTOP` (src/main.cpp line 356):
`SA_NOCLDSTOP` is set when the SIGCHLD handler is installed. -/
def sa_nocldstop : Bool := true

/-- POSIX delivery rule for the installed SIGCHLD disposition: a child exit or
termination always generates SIGCHLD; with `SA_NOCLDSTOP` set the kernel
does not generate SIGCHLD when children stop or when stopped children
continue.  (Model of the OS environment, parameterised by the flag the
source actually installs.) -/
def sigchldDelivered : ReapKind → Bool
  | .exited => true
  | .stopped => !sa_nocldstop
  | .continued => !sa_nocldstop

/-- Result of one draining pass: the state after the pass and the actions
performed during it. -/
structure DrainOut where
  st : ShellState
  acts : List Action
deriving DecidableEq, Repr

/-- `update_jobs`: the `waitpid(-1, WNOHANG | WUNTRACED | WCONTINUED)` loop.
The pending state changes the kernel reports, in reap order, are the input
trace `events` (pid and reported kind); the loop runs until none remain and
then clears `child_terminated`.  `pg` is the `getpgid` oracle used by
`find_job_by_pid`. -/
def update_jobs (pg : Int → Option Int) (st : ShellState) : List (Int × ReapKind) → DrainOut
  | [] => ⟨{ st with child_terminated := false }, []⟩
  | (pid, k) :: rest =>
    match find_job_by_pid st.jobs pg pid with
    | none => update_jobs pg st rest
    | some j =>
      match k with
      | .exited =>
        let d := update_jobs pg { st with jobs := remove_job_by_pgid st.jobs j.pgid } rest
        ⟨d.st, Action.printDoneNotice j.jid j.pgid j.cmd :: d.acts⟩
      | .stopped =>
        let d := update_jobs pg
          { st with jobs := setStatusByPgid j.pgid .STOPPED st.jobs } rest
        ⟨d.st, Action.printStoppedNotice j.jid j.pgid j.cmd :: d.acts⟩
      | .continued =>
        let d := update_jobs pg
          { st with jobs := setStatusByPgid j.pgid .RUNNING st.jobs } rest
        ⟨d.st, Action.printContinuedNotice j.jid j.pgid j.cmd :: d.acts⟩

/-- Specification-side description of one reaped state change, following the
claim's words: exited/terminated with a matching job prints a done line and
removes the job of that group; stopped sets the matching job to Stopped and
prints a stopped line; continued sets it to Running and prints a continued
line; a child with no matching entry is silently skipped.  (Second
definition, for comparison with `update_jobs`.) -/
def coordStep (pg : Int → Option Int) (jobs : List Job) : Int × ReapKind → List Job × List Action
  | (pid, k) =>
    match find_job_by_pid jobs pg pid with
    | none => (jobs, [])
    | some j =>
      match k with
      | .exited =>
        (remove_job_by_pgid jobs j.pgid, [Action.printDoneNotice j.jid j.pgid j.cmd])
      | .stopped =>
        (setStatusByPgid j.pgid .STOPPED jobs,
         [Action.printStoppedNotice j.jid j.pgid j.cmd])
      | .continued =>
        (setStatusByPgid j.pgid .RUNNING jobs,
         [Action.printContinuedNotice j.jid j.pgid j.cmd])

/-- Specification-side draining pass: fold `coordStep` over the reaped state
changes in order, concatenating the emitted lines. -/
def coordDrain (pg : Int → Option Int) (jobs : List Job) : List (Int × ReapKind) → List Job × List Action
  | [] => (jobs, [])
  | e :: rest =>
    let s := coordStep pg jobs e
    let d := coordDrain pg s.1 rest
    (d.1, s.2 ++ d.2)

/-- The flag poll at the top of each main-loop iteration
(`if (child_terminated) update_jobs();`, src/main.cpp line 362). -/
def pollAndDrain (pg : Int → Option Int) (st : ShellState)
    (pending : List (Int × ReapKind)) : DrainOut :=
  if st.child_terminated then update_jobs pg st pending else ⟨st, []⟩

/- ------------------------------------------------------------------
   Pipeline Executor (`runPipeline`, src/main.cpp lines 159-326)
   ------------------------------------------------------------------ -/

/-- Results of the OS calls `runPipeline` makes, as oracles/traces:
`pipeOk i` is the success of the i-th `pipe()` call, `forkPid i` the result
of the i-th `fork()` (`none` = failure), `waits` the outcomes of the
successive blocking `waitpid(-pgid, WUNTRACED)` calls of the foreground
wait, `chdirOk` the success of a `chdir`, `home` the value of `getenv("HOME")`. -/
structure OsRun where
  pipeOk : Nat → Bool
  forkPid : Nat → Option Int
  waits : List WaitRes
  chdirOk : Bool
  home : Option String

/-- Result of an embedded `runPipeline` call: final shell state, actions in
program order, the `int` return value, and the wait-trace suffix the
foreground wait did not consume (reaped later by others). -/
structure RunOut where
  st : ShellState
  acts : List Action
  ret : Int
  waitsLeft : List WaitRes
deriving Repr

/-- `(List.range k).all f`: whether the `k` pipe-creation calls all succeed
(the C++ loop `perror`s and returns at the first failure). -/
def pipesOk (f : Nat → Bool) (k : Nat) : Bool :=
  (List.range k).all f

/-- The fork loop of `runPipeline` as seen from the parent: starting at call
index `i` with `k` stages left and the pids created so far, return the
created pids and whether all forks succeeded (`false` = a fork failed and
the loop aborted, with the already-created pids). -/
def forkLoop (f : Nat → Option Int) : Nat → Nat → List Int → List Int × Bool
  | _, 0, acc => (acc, true)
  | i, k + 1, acc =>
    match f i with
    | none => (acc, false)
    | some pid => forkLoop f (i + 1) k (acc ++ [pid])

/-- The inline-builtin special case at the top of `runPipeline`
(lines 163-180): taken only for exactly one stage, not background, with a
nonempty argv whose first word is `cd`, `jobs` or `exit`.  `fg`/`bg` match
an empty branch there and fall through to pipeline creation, so they are
not inline-handled. -/
def inlineBuiltin (cmds : List Command) (background : Bool) : Option String :=
  match cmds with
  | [c] =>
    if background then none
    else
      match c.argv with
      | [] => none
      | name :: _ =>
        if name = "cd" ∨ name = "jobs" ∨ name = "exit" then some name else none
  | _ => none

/-- The foreground wait loop of `runPipeline` (lines 290-317).  Each
iteration is one blocking `waitpid(-pgid, WUNTRACED)` whose outcome is the
next element of the trace: `eintr` retries, an exited/terminated member
keeps waiting, `ECHILD`/other errors break, and a stopped member registers
a new Stopped job with the next fresh id, prints the stopped notice and
breaks, leaving the rest of the trace unconsumed.  Returns the state, the
actions of the loop, and the unconsumed trace suffix. -/
def fgWaitLoop (st : ShellState) (pgid : Int) (raw : String) :
    List WaitRes → ShellState × List Action × List WaitRes
  | [] => (st, [], [])
  | w :: rest =>
    match w with
    | .eintr =>
      let r := fgWaitLoop st pgid raw rest
      (r.1, Action.waitGroupA pgid :: r.2.1, r.2.2)
    | .exited =>
      let r := fgWaitLoop st pgid raw rest
      (r.1, Action.waitGroupA pgid :: r.2.1, r.2.2)
    | .echild => (st, [Action.waitGroupA pgid], rest)
    | .err => (st, [Action.waitGroupA pgid], rest)
    | .stopped =>
      let j : Job := ⟨st.next_jid, pgid, raw, .STOPPED⟩
      ({ st with jobs := st.jobs ++ [j], next_jid := st.next_jid + 1 },
       [Action.waitGroupA pgid, Action.printStoppedNotice j.jid j.pgid j.cmd],
       rest)

/-- The pipeline-spawning part of `runPipeline` (lines 182-325), entered when
the inline-builtin case does not apply: create the `n-1` pipes (first
failure: `perror("pipe")`, return `-1`); fork the `n` stages (failure:
`perror("fork")`, then `kill(-c, SIGTERM)` for every already-created pid
`c`, return `-1`); on success every child is put in the group of the first
pid (`setpgid`), then either a background job is registered (status Running,
started notice, no wait) or the terminal is handed to the group, the
foreground wait runs, and the terminal is handed back to the shell and its
modes re-captured. -/
def spawnPipeline (st : ShellState) (shell_pgid : Int) (os : OsRun)
    (cmds : List Command) (background : Bool) (raw : String) : RunOut :=
  let n := cmds.length
  if pipesOk os.pipeOk (n - 1) = false then
    ⟨st, [Action.perrorA "pipe"], -1, os.waits⟩
  else
    let fr := forkLoop os.forkPid 0 n []
    if fr.2 = false then
      ⟨st,
       (fr.1.map (fun c => Action.setpgidA c (fr.1.headD 0))) ++
         [Action.perrorA "fork"] ++ fr.1.map (fun c => Action.killGroupA c "SIGTERM"),
       -1, os.waits⟩
    else
      let pids := fr.1
      let pgid := pids.headD 0
      let setacts := pids.map (fun c => Action.setpgidA c pgid)
      if background then
        let j : Job := ⟨st.next_jid, pgid, raw, .RUNNING⟩
        ⟨{ st with jobs := st.jobs ++ [j], next_jid := st.next_jid + 1 },
         setacts ++ [Action.printStarted j.jid j.pgid], 0, os.waits⟩
      else
        let r := fgWaitLoop st pgid raw os.waits
        ⟨r.1,
         setacts ++ [Action.tcsetpgrpA pgid] ++ r.2.1 ++
           [Action.tcsetpgrpA shell_pgid, Action.tcgetattrA],
         0, r.2.2⟩

/-- `runPipeline` (parent-side behaviour): zero stages return `-1`; the
inline builtins `cd`/`jobs`/`exit` are handled without spawning; everything
else (including an `fg`/`bg` first word, whose inline branch is empty and
falls through) spawns the pipeline. -/
def runPipeline (st : ShellState) (shell_pgid : Int) (os : OsRun)
    (cmds : List Command) (background : Bool) (raw : String) : RunOut :=
  if cmds.length = 0 then ⟨st, [], -1, os.waits⟩
  else
    match inlineBuiltin cmds background with
    | some name =>
      if name = "cd" then
        let c := cmds.headD Command.emptyStage
        let path :=
          match c.argv.get? 1 with
          | some p => p
          | none => os.home.getD "/"
        ⟨st, Action.chdirA path :: (if os.chdirOk then [] else [Action.perrorA "cd"]),
         0, os.waits⟩
      else if name = "jobs" then
        ⟨st, printJobsLines st.jobs, 0, os.waits⟩
      else
        ⟨st, [Action.exitA 0], 0, os.waits⟩
    | none => spawnPipeline st shell_pgid os cmds background raw

/-- Predicate: the action is a blocking group wait. -/
def isWaitA : Action → Bool
  | .waitGroupA _ => true
  | _ => false

/-- Predicate: the action is a "Stopped" notice print. -/
def isStoppedNotice : Action → Bool
  | .printStoppedNotice _ _ _ => true
  | _ => false

/-- Predicate: the action is a "Started" notice print. -/
def isStartedNotice : Action → Bool
  | .printStarted _ _ => true
  | _ => false

/-- Predicate: the action hands terminal ownership to group `g`. -/
def isTcsetTo (g : Int) : Action → Bool
  | .tcsetpgrpA g2 => decide (g2 = g)
  | _ => false

/- ------------------------------------------------------------------
   Foreground Control Switch (`fg`/`bg` handling in `main`, lines 402-481)
   ------------------------------------------------------------------ -/

/-- The bare-token resolution of `fg`/`bg` (an argument not starting with
`%`): if the token is all digits, try its value as a job id first, then
(when the value is nonzero) as a process-group id, then as a member-process
id; a non-digit token skips the job-id try. -/
def bareResolve (jobs : List Job) (pg : Int → Option Int) (cs : List Char) : Option Job :=
  if allDigitsL cs then
    match find_job_by_jid jobs (atoiL cs) with
    | some j => some j
    | none =>
      if atoiL cs ≠ 0 then
        match find_job_by_pgid jobs (atoiL cs) with
        | some j => some j
        | none => find_job_by_pid jobs pg (atoiL cs)
      else none
  else
    if atoiL cs ≠ 0 then
      match find_job_by_pgid jobs (atoiL cs) with
      | some j => some j
      | none => find_job_by_pid jobs pg (atoiL cs)
    else none

/-- Target-job resolution of `fg`/`bg` (lines 404-430): no argument defaults
to `jobs.back()`; a nonempty token starting with `%` parses the rest with
`atoi` and looks up by job id only when positive; otherwise the bare-token
resolution applies. -/
def resolveTarget (jobs : List Job) (pg : Int → Option Int) : Option String → Option Job
  | none => jobs.getLast?
  | some t =>
    match t.data with
    | [] => bareResolve jobs pg []
    | c :: rest =>
      if c = '%' then
        let jid := atoiL rest
        if 0 < jid then find_job_by_jid jobs jid else none
      else bareResolve jobs pg (c :: rest)

/-- Specification-side resolution rule, following the claim's words: no
argument defaults to the most recently registered job (the job table is in
registration order, so its last entry); `%n` resolves as the explicit job
id `n`; a bare numeric token is tried as a job id first, then as a
process-group id, then as a member-process id.  Bare non-numeric tokens are
not described by the claim.  (Second definition, for comparison with
`resolveTarget`.) -/
def resolveSpec (jobs : List Job) (pg : Int → Option Int) : Option String → Option Job
  | none => jobs.getLast?
  | some t =>
    match t.data with
    | [] => none
    | c :: rest =>
      if c = '%' then find_job_by_jid jobs (atoiL rest)
      else if allDigitsL (c :: rest) then
        match find_job_by_jid jobs (atoiL (c :: rest)) with
        | some j => some j
        | none =>
          match find_job_by_pgid jobs (atoiL (c :: rest)) with
          | some j => some j
          | none => find_job_by_pid jobs pg (atoiL (c :: rest))
      else none

/-- Which of the two control builtins is running. -/
inductive FgBg
  | fg
  | bg
deriving DecidableEq, Repr

/-- The builtin's name, as used in its diagnostic. -/
def fgbgName : FgBg → String
  | .fg => "fg"
  | .bg => "bg"

/-- The wait loop of the `fg` builtin (lines 454-469): same protocol as the
executor's foreground wait, but a stop sets the *existing* target job's
status to Stopped (no new registration) and prints the stopped notice. -/
def fgWaitLoopTarget (st : ShellState) (j : Job) :
    List WaitRes → ShellState × List Action × List WaitRes
  | [] => (st, [], [])
  | w :: rest =>
    match w with
    | .eintr =>
      let r := fgWaitLoopTarget st j rest
      (r.1, Action.waitGroupA j.pgid :: r.2.1, r.2.2)
    | .exited =>
      let r := fgWaitLoopTarget st j rest
      (r.1, Action.waitGroupA j.pgid :: r.2.1, r.2.2)
    | .echild => (st, [Action.waitGroupA j.pgid], rest)
    | .err => (st, [Action.waitGroupA j.pgid], rest)
    | .stopped =>
      ({ st with jobs := setStatusByJid j.jid .STOPPED st.jobs },
       [Action.waitGroupA j.pgid, Action.printStoppedNotice j.jid j.pgid j.cmd],
       rest)

/-- The `fg`/`bg` builtin handler (lines 402-481).  `groupAlive` is the
outcome of the liveness probe `kill(-pgid, 0)` (`true` = a member remains),
`killOk` the outcome of `kill(-pgid, SIGCONT)`.  An unresolvable reference
reports "no such job" and changes nothing.  `bg` sends SIGCONT, sets the
target Running and prints the background-continue line without blocking.
`fg` hands the terminal to the group, sends SIGCONT, runs the wait loop,
then probes the group and removes the job if no member remains, and hands
the terminal back to the shell. -/
def fgbgCommand (which : FgBg) (st : ShellState) (shell_pgid : Int)
    (pg : Int → Option Int) (groupAlive : Int → Bool) (killOk : Bool)
    (arg : Option String) (waits : List WaitRes) :
    ShellState × List Action × List WaitRes :=
  match resolveTarget st.jobs pg arg with
  | none => (st, [Action.errNoSuchJob (fgbgName which)], waits)
  | some j =>
    match which with
    | .bg =>
      ({ st with jobs := setStatusByJid j.jid .RUNNING st.jobs },
       Action.killGroupA j.pgid "SIGCONT" ::
         ((if killOk then [] else [Action.perrorA "kill(SIGCONT)"]) ++
          [Action.printContinuedBg j.jid j.pgid]),
       waits)
    | .fg =>
      let r := fgWaitLoopTarget st j waits
      let st2 :=
        if groupAlive j.pgid then r.1
        else { r.1 with jobs := remove_job_by_pgid r.1.jobs j.pgid }
      (st2,
       Action.tcsetpgrpA j.pgid :: Action.killGroupA j.pgid "SIGCONT" ::
         ((if killOk then [] else [Action.perrorA "kill(SIGCONT)"]) ++ r.2.1 ++
          [Action.killGroupA j.pgid "0", Action.tcsetpgrpA shell_pgid]),
       r.2.2)

/- ------------------------------------------------------------------
   Main-loop builtin dispatch (src/main.cpp lines 388-483)
   ------------------------------------------------------------------ -/

/-- Where one tokenised input line is handled. -/
inductive Dispatch
  | builtinJobs
  | builtinCd
  | builtinExit
  | builtinFgBg
  | pipeline
deriving DecidableEq, Repr

/-- The main loop's dispatch on a tokenised line (after the background marker
was stripped): `jobs`, `cd`, `exit`, `fg`/`bg` are dispatched purely on the
first token; everything else goes to `buildCommands`/`runPipeline`. -/
def mainDispatch : List String → Dispatch
  | [] => .pipeline
  | t :: _ =>
    if t = "jobs" then .builtinJobs
    else if t = "cd" then .builtinCd
    else if t = "exit" then .builtinExit
    else if t = "fg" ∨ t = "bg" then .builtinFgBg
    else .pipeline

/- ------------------------------------------------------------------
   Concrete fixtures used by the witness theorems
   ------------------------------------------------------------------ -/

/-- A fresh shell state: empty job table, next job id 1, flag clear. -/
def st1 : ShellState := ⟨[], 1, false⟩

/-- An OS run in which every pipe and fork succeeds (child pids 100, 101,
...) and the foreground wait reports one exit, then a stop, then an exit. -/
def os1 : OsRun :=
  ⟨fun _ => true, fun i => some (100 + (i : Int)),
   [WaitRes.exited, WaitRes.stopped, WaitRes.exited], true, none⟩

/-- An OS run whose first pipe creation fails. -/
def osPF : OsRun := ⟨fun _ => false, fun i => some (100 + (i : Int)), [], true, none⟩

/-- An OS run whose second fork fails (the first child, pid 100, exists). -/
def osFF : OsRun :=
  ⟨fun _ => true, fun i => if i = 0 then some 100 else none, [], true, none⟩

/-- A two-stage pipeline `sleep 5 | cat`. -/
def cmds1 : List Command := [⟨["sleep", "5"], "", "", false⟩, ⟨["cat"], "", "", false⟩]

/-- A two-entry job table. -/
def jtab : List Job := [⟨1, 100, "cmd1", .STOPPED⟩, ⟨2, 200, "cmd2", .RUNNING⟩]

/-- A `getpgid` oracle: process 205 is in group 200, nothing else exists. -/
def pgA : Int → Option Int := fun p => if p = 205 then some 200 else none

/-- A `getpgid` oracle: processes 101 and 102 are both members of group 100. -/
def pgB : Int → Option Int := fun p => if p = 101 ∨ p = 102 then some 100 else none

/-- The `getpgid` oracle seen by a draining pass for pids it has already
reaped: a reaped (exited) child no longer exists, so `getpgid` fails with
ESRCH for every such pid. -/
def pgDead : Int → Option Int := fun _ => none

/- ==================================================================
   Theorems
   ================================================================== -/

theorem buildCommandsAux_nil (done : List Command) (cur : Command) :
    buildCommandsAux done cur [] = done ++ [cur] := by
  rw [buildCommandsAux.eq_def]

theorem buildCommandsAux_cons (done : List Command) (cur : Command)
    (tk : String) (rest : List String) :
    buildCommandsAux done cur (tk :: rest) =
    (if tk = "|" then buildCommandsAux (done ++ [cur]) Command.emptyStage rest
    else if tk = "<" then
      match rest with
      | [] => done ++ [cur]
      | f :: r2 => buildCommandsAux done { cur with infile := f } r2
    else if tk = ">" then
      match rest with
      | [] => done ++ [cur]
      | f :: r2 => buildCommandsAux done { cur with outfile := f, append := false } r2
    else if tk = ">>" then
      match rest with
      | [] => done ++ [cur]
      | f :: r2 => buildCommandsAux done { cur with outfile := f, append := true } r2
    else buildCommandsAux done { cur with argv := cur.argv ++ [tk] } rest) := by
  rw [buildCommandsAux.eq_def]

theorem specInFiles_nil : specInFiles [] = [] := by
  rw [specInFiles.eq_def]

theorem specInFiles_cons (tk : String) (rest : List String) :
    specInFiles (tk :: rest) =
    (if tk = "<" then
      match rest with
      | [] => []
      | f :: r2 => f :: specInFiles r2
    else if tk = ">" ∨ tk = ">>" then
      match rest with
      | [] => []
      | _ :: r2 => specInFiles r2
    else specInFiles rest) := by
  rw [specInFiles.eq_def]

theorem specOutFiles_nil : specOutFiles [] = [] := by
  rw [specOutFiles.eq_def]

theorem specOutFiles_cons (tk : String) (rest : List String) :
    specOutFiles (tk :: rest) =
    (if tk = ">" then
      match rest with
      | [] => []
      | f :: r2 => (f, false) :: specOutFiles r2
    else if tk = ">>" then
      match rest with
      | [] => []
      | f :: r2 => (f, true) :: specOutFiles r2
    else if tk = "<" then
      match rest with
      | [] => []
      | _ :: r2 => specOutFiles r2
    else specOutFiles rest) := by
  rw [specOutFiles.eq_def]

theorem bca_pipe (done : List Command) (cur : Command) (rest : List String) :
    buildCommandsAux done cur ("|" :: rest)
      = buildCommandsAux (done ++ [cur]) Command.emptyStage rest := by
  rw [buildCommandsAux_cons]; simp

theorem bca_lt_cons (done : List Command) (cur : Command) (f : String) (r2 : List String) :
    buildCommandsAux done cur ("<" :: f :: r2)
      = buildCommandsAux done { cur with infile := f } r2 := by
  rw [buildCommandsAux_cons]; simp

theorem bca_lt_nil (done : List Command) (cur : Command) :
    buildCommandsAux done cur ["<"] = done ++ [cur] := by
  rw [buildCommandsAux_cons]; simp

theorem bca_gt_cons (done : List Command) (cur : Command) (f : String) (r2 : List String) :
    buildCommandsAux done cur (">" :: f :: r2)
      = buildCommandsAux done { cur with outfile := f, append := false } r2 := by
  rw [buildCommandsAux_cons]; simp

theorem bca_gt_nil (done : List Command) (cur : Command) :
    buildCommandsAux done cur [">"] = done ++ [cur] := by
  rw [buildCommandsAux_cons]; simp

theorem bca_app_cons (done : List Command) (cur : Command) (f : String) (r2 : List String) :
    buildCommandsAux done cur (">>" :: f :: r2)
      = buildCommandsAux done { cur with outfile := f, append := true } r2 := by
  rw [buildCommandsAux_cons]; simp

theorem bca_app_nil (done : List Command) (cur : Command) :
    buildCommandsAux done cur [">>"] = done ++ [cur] := by
  rw [buildCommandsAux_cons]; simp

theorem bca_word (done : List Command) (cur : Command) (tk : String) (rest : List String)
    (h1 : tk ≠ "|") (h2 : tk ≠ "<") (h3 : tk ≠ ">") (h4 : tk ≠ ">>") :
    buildCommandsAux done cur (tk :: rest)
      = buildCommandsAux done { cur with argv := cur.argv ++ [tk] } rest := by
  rw [buildCommandsAux_cons]; simp [h1, h2, h3, h4]

theorem specIn_lt_cons (f : String) (r2 : List String) :
    specInFiles ("<" :: f :: r2) = f :: specInFiles r2 := by
  rw [specInFiles_cons]; simp

theorem specIn_lt_nil : specInFiles ["<"] = [] := by
  rw [specInFiles_cons]; simp

theorem specIn_gt_cons (f : String) (r2 : List String) :
    specInFiles (">" :: f :: r2) = specInFiles r2 := by
  rw [specInFiles_cons]; simp

theorem specIn_gt_nil : specInFiles [">"] = [] := by
  rw [specInFiles_cons]; simp

theorem specIn_app_cons (f : String) (r2 : List String) :
    specInFiles (">>" :: f :: r2) = specInFiles r2 := by
  rw [specInFiles_cons]; simp

theorem specIn_app_nil : specInFiles [">>"] = [] := by
  rw [specInFiles_cons]; simp

theorem specIn_word (tk : String) (rest : List String)
    (h2 : tk ≠ "<") (hio : ¬(tk = ">" ∨ tk = ">>")) :
    specInFiles (tk :: rest) = specInFiles rest := by
  rw [specInFiles_cons]; simp [h2, hio]

theorem specOut_lt_cons (f : String) (r2 : List String) :
    specOutFiles ("<" :: f :: r2) = specOutFiles r2 := by
  rw [specOutFiles_cons]; simp

theorem specOut_lt_nil : specOutFiles ["<"] = [] := by
  rw [specOutFiles_cons]; simp

theorem specOut_gt_cons (f : String) (r2 : List String) :
    specOutFiles (">" :: f :: r2) = (f, false) :: specOutFiles r2 := by
  rw [specOutFiles_cons]; simp

theorem specOut_gt_nil : specOutFiles [">"] = [] := by
  rw [specOutFiles_cons]; simp

theorem specOut_app_cons (f : String) (r2 : List String) :
    specOutFiles (">>" :: f :: r2) = (f, true) :: specOutFiles r2 := by
  rw [specOutFiles_cons]; simp

theorem specOut_app_nil : specOutFiles [">>"] = [] := by
  rw [specOutFiles_cons]; simp

theorem specOut_word (tk : String) (rest : List String)
    (h2 : tk ≠ "<") (h3 : tk ≠ ">") (h4 : tk ≠ ">>") :
    specOutFiles (tk :: rest) = specOutFiles rest := by
  rw [specOutFiles_cons]; simp [h2, h3, h4]

theorem buildCommandsAux_length_le (fuel : Nat) :
    ∀ ts : List String, ts.length ≤ fuel → ∀ (done : List Command) (cur : Command),
      (buildCommandsAux done cur ts).length ≤ done.length + 1 + List.count "|" ts := by
  induction fuel with
  | zero =>
    intro ts hts done cur
    have h0 : ts = [] := List.length_eq_zero.mp (Nat.le_zero.mp hts)
    subst h0
    simp [buildCommandsAux_nil]
  | succ n ih =>
    intro ts hts done cur
    cases ts with
    | nil => simp [buildCommandsAux_nil]
    | cons tk rest =>
      have hrest : rest.length ≤ n := by
        have h := hts; simp only [List.length_cons] at h; omega
      rw [buildCommandsAux_cons]
      by_cases h1 : tk = "|"
      · simp only [if_pos h1]
        have h2 := ih rest hrest (done ++ [cur]) Command.emptyStage
        simp only [List.length_append, List.length_singleton] at h2
        simp [List.count_cons, h1]
        omega
      · simp only [if_neg h1]
        have hcnt : List.count "|" (tk :: rest) = List.count "|" rest := by
          simp [List.count_cons, h1]
        by_cases h2 : tk = "<"
        · simp only [if_pos h2]
          cases rest with
          | nil => simp [List.count_nil]
          | cons f r2 =>
            have hr2 : r2.length ≤ n := by
              simp only [List.length_cons] at hts; omega
            have h3 := ih r2 hr2 done { cur with infile := f }
            have hcnt2 : List.count "|" r2 ≤ List.count "|" (f :: r2) := by
              simp [List.count_cons]
            rw [hcnt]
            calc (buildCommandsAux done { cur with infile := f } r2).length
                ≤ done.length + 1 + List.count "|" r2 := h3
              _ ≤ done.length + 1 + List.count "|" (f :: r2) := by omega
        · simp only [if_neg h2]
          by_cases h3 : tk = ">"
          · simp only [if_pos h3]
            cases rest with
            | nil => simp [List.count_nil]
            | cons f r2 =>
              have hr2 : r2.length ≤ n := by
                simp only [List.length_cons] at hts; omega
              have h4 := ih r2 hr2 done { cur with outfile := f, append := false }
              have hcnt2 : List.count "|" r2 ≤ List.count "|" (f :: r2) := by
                simp [List.count_cons]
              rw [hcnt]
              calc (buildCommandsAux done { cur with outfile := f, append := false } r2).length
                  ≤ done.length + 1 + List.count "|" r2 := h4
                _ ≤ done.length + 1 + List.count "|" (f :: r2) := by omega
          · simp only [if_neg h3]
            by_cases h4 : tk = ">>"
            · simp only [if_pos h4]
              cases rest with
              | nil => simp [List.count_nil]
              | cons f r2 =>
                have hr2 : r2.length ≤ n := by
                  simp only [List.length_cons] at hts; omega
                have h5 := ih r2 hr2 done { cur with outfile := f, append := true }
                have hcnt2 : List.count "|" r2 ≤ List.count "|" (f :: r2) := by
                  simp [List.count_cons]
                rw [hcnt]
                calc (buildCommandsAux done { cur with outfile := f, append := true } r2).length
                    ≤ done.length + 1 + List.count "|" r2 := h5
                  _ ≤ done.length + 1 + List.count "|" (f :: r2) := by omega
            · simp only [if_neg h4]
              have h5 := ih rest hrest done { cur with argv := cur.argv ++ [tk] }
              rw [hcnt]
              exact h5

theorem buildCommandsRaw_length_le (ts : List String) :
    (buildCommandsRaw ts).length ≤ List.count "|" ts + 1 := by
  have := buildCommandsAux_length_le ts.length ts le_rfl [] Command.emptyStage
  simpa [buildCommandsRaw, Nat.add_comm] using this

/-- C8.  For every token sequence with k pipe tokens the Command Builder
returns at most k+1 stages, and whenever the stage list built by the
token loop ends in an entirely empty stage (no arguments, no input file,
no output file), that final stage is dropped from the returned result. -/
theorem c8_stage_bound_and_trailing_drop (ts : List String) :
    (buildCommands ts).length ≤ List.count "|" ts + 1
    ∧ (∀ c, (buildCommandsRaw ts).getLast? = some c →
        c.argv = [] → c.infile = "" → c.outfile = "" →
        buildCommands ts = (buildCommandsRaw ts).dropLast) := by
  constructor
  · have hraw := buildCommandsRaw_length_le ts
    unfold buildCommands
    cases hlast : (buildCommandsRaw ts).getLast? with
    | none => exact hraw
    | some c =>
      by_cases hempty : c.argv = [] ∧ c.infile = "" ∧ c.outfile = ""
      · simp only [if_pos hempty]
        have := List.length_dropLast (buildCommandsRaw ts)
        omega
      · simp only [if_neg hempty]
        exact hraw
  · intro c hlast h1 h2 h3
    unfold buildCommands
    rw [hlast]
    simp [h1, h2, h3]

/-- Witness for C8 at the concrete token sequence `a |` (one pipe token,
trailing empty stage). -/
theorem c8_witness :
    (buildCommands ["a", "|"]).length ≤ List.count "|" ["a", "|"] + 1
    ∧ buildCommands ["a", "|"] = (buildCommandsRaw ["a", "|"]).dropLast :=
  ⟨(c8_stage_bound_and_trailing_drop ["a", "|"]).1,
   (c8_stage_bound_and_trailing_drop ["a", "|"]).2 Command.emptyStage (by decide)
     rfl rfl rfl⟩

theorem buildCommandsAux_noPipe (fuel : Nat) :
    ∀ ts : List String, ts.length ≤ fuel → "|" ∉ ts →
      ∀ (done : List Command) (cur : Command),
      ∃ c, buildCommandsAux done cur ts = done ++ [c]
        ∧ c.infile = (specInFiles ts).getLastD cur.infile
        ∧ c.outfile = ((specOutFiles ts).getLastD (cur.outfile, cur.append)).1
        ∧ c.append = ((specOutFiles ts).getLastD (cur.outfile, cur.append)).2 := by
  induction fuel with
  | zero =>
    intro ts hts _ done cur
    have h0 : ts = [] := List.length_eq_zero.mp (Nat.le_zero.mp hts)
    subst h0
    exact ⟨cur, by simp [buildCommandsAux_nil, specInFiles_nil, specOutFiles_nil]⟩
  | succ n ih =>
    intro ts hts hnp done cur
    cases ts with
    | nil =>
      exact ⟨cur, by simp [buildCommandsAux_nil, specInFiles_nil, specOutFiles_nil]⟩
    | cons tk rest =>
      have h1 : tk ≠ "|" := fun h => hnp (by simp [h])
      have hnp2 : "|" ∉ rest := fun h => hnp (List.mem_cons_of_mem _ h)
      have hrest : rest.length ≤ n := by
        have h := hts; simp only [List.length_cons] at h; omega
      by_cases h2 : tk = "<"
      · subst h2
        cases rest with
        | nil => exact ⟨cur, by simp [bca_lt_nil, specIn_lt_nil, specOut_lt_nil]⟩
        | cons f r2 =>
          have hr2 : r2.length ≤ n := by
            simp only [List.length_cons] at hts; omega
          have hnp3 : "|" ∉ r2 := fun h => hnp2 (List.mem_cons_of_mem _ h)
          obtain ⟨c, hc, hin, hout, happ⟩ := ih r2 hr2 hnp3 done { cur with infile := f }
          refine ⟨c, ?_, ?_, ?_, ?_⟩
          · rw [bca_lt_cons]; exact hc
          · rw [specIn_lt_cons, List.getLastD_cons]; exact hin
          · rw [specOut_lt_cons]; exact hout
          · rw [specOut_lt_cons]; exact happ
      · by_cases h3 : tk = ">"
        · subst h3
          cases rest with
          | nil => exact ⟨cur, by simp [bca_gt_nil, specIn_gt_nil, specOut_gt_nil]⟩
          | cons f r2 =>
            have hr2 : r2.length ≤ n := by
              simp only [List.length_cons] at hts; omega
            have hnp3 : "|" ∉ r2 := fun h => hnp2 (List.mem_cons_of_mem _ h)
            obtain ⟨c, hc, hin, hout, happ⟩ :=
              ih r2 hr2 hnp3 done { cur with outfile := f, append := false }
            refine ⟨c, ?_, ?_, ?_, ?_⟩
            · rw [bca_gt_cons]; exact hc
            · rw [specIn_gt_cons]; exact hin
            · rw [specOut_gt_cons, List.getLastD_cons]; exact hout
            · rw [specOut_gt_cons, List.getLastD_cons]; exact happ
        · by_cases h4 : tk = ">>"
          · subst h4
            cases rest with
            | nil => exact ⟨cur, by simp [bca_app_nil, specIn_app_nil, specOut_app_nil]⟩
            | cons f r2 =>
              have hr2 : r2.length ≤ n := by
                simp only [List.length_cons] at hts; omega
              have hnp3 : "|" ∉ r2 := fun h => hnp2 (List.mem_cons_of_mem _ h)
              obtain ⟨c, hc, hin, hout, happ⟩ :=
                ih r2 hr2 hnp3 done { cur with outfile := f, append := true }
              refine ⟨c, ?_, ?_, ?_, ?_⟩
              · rw [bca_app_cons]; exact hc
              · rw [specIn_app_cons]; exact hin
              · rw [specOut_app_cons, List.getLastD_cons]; exact hout
              · rw [specOut_app_cons, List.getLastD_cons]; exact happ
          · have hio : ¬((tk = ">") ∨ (tk = ">>")) := by
              rintro (h | h) <;> [exact h3 h; exact h4 h]
            obtain ⟨c, hc, hin, hout, happ⟩ :=
              ih rest hrest hnp2 done { cur with argv := cur.argv ++ [tk] }
            refine ⟨c, ?_, ?_, ?_, ?_⟩
            · rw [bca_word done cur tk rest h1 h2 h3 h4]; exact hc
            · rw [specIn_word tk rest h2 hio]; exact hin
            · rw [specOut_word tk rest h2 h3 h4]; exact hout
            · rw [specOut_word tk rest h2 h3 h4]; exact happ

/-- C10.  For a token sequence without pipe tokens, every stage the Command
Builder returns takes its input file from the operand of the final
recognised `<` operator, and its output file and append flag from the
operand of the final recognised `>`/`>>` operator (an operator token that
was consumed as the operand of a preceding redirection operator is an
operand, not an operator occurrence); with no such operator the field
stays empty. -/
theorem c10_last_redirection_wins (ts : List String) (hnp : "|" ∉ ts) :
    ∀ c ∈ buildCommands ts,
      c.infile = (specInFiles ts).getLastD ""
      ∧ c.outfile = ((specOutFiles ts).getLastD ("", false)).1
      ∧ c.append = ((specOutFiles ts).getLastD ("", false)).2 := by
  obtain ⟨c0, hc0, hin, hout, happ⟩ :=
    buildCommandsAux_noPipe ts.length ts le_rfl hnp [] Command.emptyStage
  have hraw : buildCommandsRaw ts = [c0] := by
    simpa [buildCommandsRaw] using hc0
  intro c hc
  have hc' : c = c0 := by
    unfold buildCommands at hc
    rw [hraw] at hc
    simp only [List.getLast?_singleton] at hc
    by_cases hempty : c0.argv = [] ∧ c0.infile = "" ∧ c0.outfile = ""
    · simp [hempty] at hc
    · simp [hempty] at hc
      exact hc
  subst hc'
  exact ⟨hin, hout, happ⟩

/-- Witness for C10 at the concrete stage tokens
`cmd < a < b > o >> p` (two input, two output redirections). -/
theorem c10_witness :
    ("|" ∉ (["cmd", "<", "a", "<", "b", ">", "o", ">>", "p"] : List String))
    ∧ (⟨["cmd"], "b", "p", true⟩ : Command)
        ∈ buildCommands ["cmd", "<", "a", "<", "b", ">", "o", ">>", "p"]
    ∧ (⟨["cmd"], "b", "p", true⟩ : Command).infile
        = (specInFiles ["cmd", "<", "a", "<", "b", ">", "o", ">>", "p"]).getLastD "" :=
  ⟨by decide, by decide,
   (c10_last_redirection_wins ["cmd", "<", "a", "<", "b", ">", "o", ">>", "p"]
     (by decide) ⟨["cmd"], "b", "p", true⟩ (by decide)).1⟩

theorem update_jobs_nil (pg : Int → Option Int) (st : ShellState) :
    update_jobs pg st [] = ⟨{ st with child_terminated := false }, []⟩ := by
  rw [update_jobs.eq_def]

theorem update_jobs_skip (pg : Int → Option Int) (st : ShellState)
    (pid : Int) (k : ReapKind) (rest : List (Int × ReapKind))
    (hf : find_job_by_pid st.jobs pg pid = none) :
    update_jobs pg st ((pid, k) :: rest) = update_jobs pg st rest := by
  rw [update_jobs.eq_def]; simp only [hf]

theorem update_jobs_exited (pg : Int → Option Int) (st : ShellState)
    (pid : Int) (rest : List (Int × ReapKind)) (j : Job)
    (hf : find_job_by_pid st.jobs pg pid = some j) :
    update_jobs pg st ((pid, ReapKind.exited) :: rest)
      = ⟨(update_jobs pg { st with jobs := remove_job_by_pgid st.jobs j.pgid } rest).st,
         Action.printDoneNotice j.jid j.pgid j.cmd ::
           (update_jobs pg { st with jobs := remove_job_by_pgid st.jobs j.pgid } rest).acts⟩ := by
  rw [update_jobs.eq_def]; simp only [hf]

theorem update_jobs_stopped (pg : Int → Option Int) (st : ShellState)
    (pid : Int) (rest : List (Int × ReapKind)) (j : Job)
    (hf : find_job_by_pid st.jobs pg pid = some j) :
    update_jobs pg st ((pid, ReapKind.stopped) :: rest)
      = ⟨(update_jobs pg { st with jobs := setStatusByPgid j.pgid .STOPPED st.jobs } rest).st,
         Action.printStoppedNotice j.jid j.pgid j.cmd ::
           (update_jobs pg { st with jobs := setStatusByPgid j.pgid .STOPPED st.jobs } rest).acts⟩ := by
  rw [update_jobs.eq_def]; simp only [hf]

theorem update_jobs_continued (pg : Int → Option Int) (st : ShellState)
    (pid : Int) (rest : List (Int × ReapKind)) (j : Job)
    (hf : find_job_by_pid st.jobs pg pid = some j) :
    update_jobs pg st ((pid, ReapKind.continued) :: rest)
      = ⟨(update_jobs pg { st with jobs := setStatusByPgid j.pgid .RUNNING st.jobs } rest).st,
         Action.printContinuedNotice j.jid j.pgid j.cmd ::
           (update_jobs pg { st with jobs := setStatusByPgid j.pgid .RUNNING st.jobs } rest).acts⟩ := by
  rw [update_jobs.eq_def]; simp only [hf]

theorem coordStep_skip (pg : Int → Option Int) (jobs : List Job)
    (pid : Int) (k : ReapKind) (hf : find_job_by_pid jobs pg pid = none) :
    coordStep pg jobs (pid, k) = (jobs, []) := by
  rw [coordStep.eq_def]; simp only [hf]

theorem coordStep_exited (pg : Int → Option Int) (jobs : List Job)
    (pid : Int) (j : Job) (hf : find_job_by_pid jobs pg pid = some j) :
    coordStep pg jobs (pid, ReapKind.exited)
      = (remove_job_by_pgid jobs j.pgid, [Action.printDoneNotice j.jid j.pgid j.cmd]) := by
  rw [coordStep.eq_def]; simp only [hf]

theorem coordStep_stopped (pg : Int → Option Int) (jobs : List Job)
    (pid : Int) (j : Job) (hf : find_job_by_pid jobs pg pid = some j) :
    coordStep pg jobs (pid, ReapKind.stopped)
      = (setStatusByPgid j.pgid .STOPPED jobs,
         [Action.printStoppedNotice j.jid j.pgid j.cmd]) := by
  rw [coordStep.eq_def]; simp only [hf]

theorem coordStep_continued (pg : Int → Option Int) (jobs : List Job)
    (pid : Int) (j : Job) (hf : find_job_by_pid jobs pg pid = some j) :
    coordStep pg jobs (pid, ReapKind.continued)
      = (setStatusByPgid j.pgid .RUNNING jobs,
         [Action.printContinuedNotice j.jid j.pgid j.cmd]) := by
  rw [coordStep.eq_def]; simp only [hf]

theorem coordDrain_nil (pg : Int → Option Int) (jobs : List Job) :
    coordDrain pg jobs [] = (jobs, []) := by
  rw [coordDrain.eq_def]

theorem coordDrain_cons (pg : Int → Option Int) (jobs : List Job)
    (e : Int × ReapKind) (rest : List (Int × ReapKind)) :
    coordDrain pg jobs (e :: rest)
      = ((coordDrain pg (coordStep pg jobs e).1 rest).1,
         (coordStep pg jobs e).2 ++ (coordDrain pg (coordStep pg jobs e).1 rest).2) := by
  rw [coordDrain.eq_def]

/-- C3.  One draining pass of the Signal/Reap Coordinator is exactly the
left-to-right fold of the per-event rule stated by the specification
(exited/terminated with match: done line and removal of that group's job
even if other members are outstanding; stopped with match: status Stopped
and a stopped line; continued with match: status Running and a continued
line; no match: silently skipped), and the pass clears the notification
flag and touches nothing else of the shell state. -/
theorem c3_drain_refines_spec (pg : Int → Option Int)
    (events : List (Int × ReapKind)) (st : ShellState) :
    (update_jobs pg st events).st.jobs = (coordDrain pg st.jobs events).1
    ∧ (update_jobs pg st events).acts = (coordDrain pg st.jobs events).2
    ∧ (update_jobs pg st events).st.child_terminated = false
    ∧ (update_jobs pg st events).st.next_jid = st.next_jid := by
  induction events generalizing st with
  | nil => simp [update_jobs_nil, coordDrain_nil]
  | cons e rest ih =>
    obtain ⟨pid, k⟩ := e
    cases hf : find_job_by_pid st.jobs pg pid with
    | none =>
      rw [update_jobs_skip pg st pid k rest hf, coordDrain_cons,
        coordStep_skip pg st.jobs pid k hf]
      simpa using ih st
    | some j =>
      cases k with
      | exited =>
        rw [update_jobs_exited pg st pid rest j hf, coordDrain_cons,
          coordStep_exited pg st.jobs pid j hf]
        have h := ih { st with jobs := remove_job_by_pgid st.jobs j.pgid }
        simp only at h ⊢
        exact ⟨h.1, by simp [h.2.1], h.2.2.1, h.2.2.2⟩
      | stopped =>
        rw [update_jobs_stopped pg st pid rest j hf, coordDrain_cons,
          coordStep_stopped pg st.jobs pid j hf]
        have h := ih { st with jobs := setStatusByPgid j.pgid .STOPPED st.jobs }
        simp only at h ⊢
        exact ⟨h.1, by simp [h.2.1], h.2.2.1, h.2.2.2⟩
      | continued =>
        rw [update_jobs_continued pg st pid rest j hf, coordDrain_cons,
          coordStep_continued pg st.jobs pid j hf]
        have h := ih { st with jobs := setStatusByPgid j.pgid .RUNNING st.jobs }
        simp only at h ⊢
        exact ⟨h.1, by simp [h.2.1], h.2.2.1, h.2.2.2⟩

theorem fgWaitLoop_nil (st : ShellState) (pgid : Int) (raw : String) :
    fgWaitLoop st pgid raw [] = (st, [], []) := by
  rw [fgWaitLoop.eq_def]

theorem fgWaitLoop_exited (st : ShellState) (pgid : Int) (raw : String) (rest : List WaitRes) :
    fgWaitLoop st pgid raw (WaitRes.exited :: rest)
      = ((fgWaitLoop st pgid raw rest).1,
         Action.waitGroupA pgid :: (fgWaitLoop st pgid raw rest).2.1,
         (fgWaitLoop st pgid raw rest).2.2) := by
  rw [fgWaitLoop.eq_def]

theorem fgWaitLoop_eintr (st : ShellState) (pgid : Int) (raw : String) (rest : List WaitRes) :
    fgWaitLoop st pgid raw (WaitRes.eintr :: rest)
      = ((fgWaitLoop st pgid raw rest).1,
         Action.waitGroupA pgid :: (fgWaitLoop st pgid raw rest).2.1,
         (fgWaitLoop st pgid raw rest).2.2) := by
  rw [fgWaitLoop.eq_def]

theorem fgWaitLoop_echild (st : ShellState) (pgid : Int) (raw : String) (rest : List WaitRes) :
    fgWaitLoop st pgid raw (WaitRes.echild :: rest)
      = (st, [Action.waitGroupA pgid], rest) := by
  rw [fgWaitLoop.eq_def]

theorem fgWaitLoop_err (st : ShellState) (pgid : Int) (raw : String) (rest : List WaitRes) :
    fgWaitLoop st pgid raw (WaitRes.err :: rest)
      = (st, [Action.waitGroupA pgid], rest) := by
  rw [fgWaitLoop.eq_def]

theorem fgWaitLoop_stopped (st : ShellState) (pgid : Int) (raw : String) (rest : List WaitRes) :
    fgWaitLoop st pgid raw (WaitRes.stopped :: rest)
      = ({ st with jobs := st.jobs ++ [⟨st.next_jid, pgid, raw, .STOPPED⟩],
                   next_jid := st.next_jid + 1 },
         [Action.waitGroupA pgid, Action.printStoppedNotice st.next_jid pgid raw],
         rest) := by
  rw [fgWaitLoop.eq_def]

theorem fgWaitLoop_stop_path (pgid : Int) (raw : String) :
    ∀ (pre : List WaitRes), (∀ e ∈ pre, e = WaitRes.exited ∨ e = WaitRes.eintr) →
    ∀ (st : ShellState) (rest : List WaitRes),
    fgWaitLoop st pgid raw (pre ++ WaitRes.stopped :: rest)
      = ({ st with jobs := st.jobs ++ [⟨st.next_jid, pgid, raw, .STOPPED⟩],
                   next_jid := st.next_jid + 1 },
         pre.map (fun _ => Action.waitGroupA pgid) ++
           [Action.waitGroupA pgid, Action.printStoppedNotice st.next_jid pgid raw],
         rest) := by
  intro pre
  induction pre with
  | nil =>
    intro _ st rest
    simpa using fgWaitLoop_stopped st pgid raw rest
  | cons e pre' ih =>
    intro hpre st rest
    have he : e = WaitRes.exited ∨ e = WaitRes.eintr := hpre e (by simp)
    have hpre' : ∀ x ∈ pre', x = WaitRes.exited ∨ x = WaitRes.eintr :=
      fun x hx => hpre x (by simp [hx])
    have ih' := ih hpre' st rest
    rcases he with he | he <;> subst he
    · rw [List.cons_append, fgWaitLoop_exited, ih']; simp
    · rw [List.cons_append, fgWaitLoop_eintr, ih']; simp

theorem fgWaitLoop_acts_shape (pgid : Int) (raw : String) :
    ∀ (waits : List WaitRes) (st : ShellState),
    ∀ a ∈ (fgWaitLoop st pgid raw waits).2.1,
      a = Action.waitGroupA pgid ∨ ∃ jid, a = Action.printStoppedNotice jid pgid raw := by
  intro waits
  induction waits with
  | nil => intro st a ha; rw [fgWaitLoop_nil] at ha; simp at ha
  | cons w rest ih =>
    intro st a ha
    cases w with
    | exited =>
      rw [fgWaitLoop_exited] at ha
      rcases List.mem_cons.mp ha with h | h
      · exact Or.inl h
      · exact ih st a h
    | eintr =>
      rw [fgWaitLoop_eintr] at ha
      rcases List.mem_cons.mp ha with h | h
      · exact Or.inl h
      · exact ih st a h
    | echild => rw [fgWaitLoop_echild] at ha; simp at ha; exact Or.inl ha
    | err => rw [fgWaitLoop_err] at ha; simp at ha; exact Or.inl ha
    | stopped =>
      rw [fgWaitLoop_stopped] at ha
      rcases List.mem_cons.mp ha with h | h
      · exact Or.inl h
      · simp at h
        exact Or.inr ⟨st.next_jid, h⟩

theorem forkLoop_zero (f : Nat → Option Int) (i : Nat) (acc : List Int) :
    forkLoop f i 0 acc = (acc, true) := by
  rw [forkLoop.eq_def]

theorem forkLoop_succ_none (f : Nat → Option Int) (i k : Nat) (acc : List Int)
    (hf : f i = none) : forkLoop f i (k + 1) acc = (acc, false) := by
  rw [forkLoop.eq_def]; simp only [hf]

theorem forkLoop_succ_some (f : Nat → Option Int) (i k : Nat) (acc : List Int) (p : Int)
    (hf : f i = some p) : forkLoop f i (k + 1) acc = forkLoop f (i + 1) k (acc ++ [p]) := by
  rw [forkLoop.eq_def]; simp only [hf]

theorem forkLoop_acc (f : Nat → Option Int) :
    ∀ (k i : Nat) (acc : List Int),
      (forkLoop f i k acc).1 = acc ++ (forkLoop f i k []).1
      ∧ (forkLoop f i k acc).2 = (forkLoop f i k []).2 := by
  intro k
  induction k with
  | zero => intro i acc; simp [forkLoop_zero]
  | succ k ih =>
    intro i acc
    cases hf : f i with
    | none => simp [forkLoop_succ_none f i k _ hf]
    | some p =>
      rw [forkLoop_succ_some f i k acc p hf, forkLoop_succ_some f i k [] p hf]
      constructor
      · rw [(ih (i + 1) (acc ++ [p])).1, (ih (i + 1) ([] ++ [p])).1]
        simp
      · rw [(ih (i + 1) (acc ++ [p])).2, (ih (i + 1) ([] ++ [p])).2]

theorem forkLoop_head (f : Nat → Option Int) (n : Nat) (p0 : Int)
    (hp0 : f 0 = some p0) (hn : 0 < n) :
    ∃ tl, (forkLoop f 0 n []).1 = p0 :: tl := by
  obtain ⟨m, rfl⟩ : ∃ m, n = m + 1 := ⟨n - 1, by omega⟩
  rw [forkLoop_succ_some f 0 m [] p0 hp0]
  refine ⟨(forkLoop f 1 m []).1, ?_⟩
  have h := (forkLoop_acc f m 1 ([] ++ [p0])).1
  simpa using h

theorem inlineBuiltin_background (cmds : List Command) :
    inlineBuiltin cmds true = none := by
  rcases cmds with _ | ⟨c, _ | ⟨d, tl⟩⟩ <;> rw [inlineBuiltin.eq_def] <;> simp

theorem runPipeline_spawn (st : ShellState) (spg : Int) (os : OsRun)
    (cmds : List Command) (background : Bool) (raw : String)
    (hne : cmds ≠ []) (hib : inlineBuiltin cmds background = none) :
    runPipeline st spg os cmds background raw
      = spawnPipeline st spg os cmds background raw := by
  have h0 : cmds.length ≠ 0 := by simpa using hne
  unfold runPipeline
  rw [if_neg h0, hib]

theorem spawnPipeline_pipe_fail (st : ShellState) (spg : Int) (os : OsRun)
    (cmds : List Command) (background : Bool) (raw : String)
    (hpipes : pipesOk os.pipeOk (cmds.length - 1) = false) :
    spawnPipeline st spg os cmds background raw
      = ⟨st, [Action.perrorA "pipe"], -1, os.waits⟩ := by
  unfold spawnPipeline
  simp only [hpipes, if_pos]

theorem spawnPipeline_fork_fail (st : ShellState) (spg : Int) (os : OsRun)
    (cmds : List Command) (background : Bool) (raw : String)
    (hpipes : pipesOk os.pipeOk (cmds.length - 1) = true)
    (hff : (forkLoop os.forkPid 0 cmds.length []).2 = false) :
    spawnPipeline st spg os cmds background raw
      = ⟨st,
         ((forkLoop os.forkPid 0 cmds.length []).1.map
            (fun c => Action.setpgidA c ((forkLoop os.forkPid 0 cmds.length []).1.headD 0))) ++
           [Action.perrorA "fork"] ++
           (forkLoop os.forkPid 0 cmds.length []).1.map (fun c => Action.killGroupA c "SIGTERM"),
         -1, os.waits⟩ := by
  unfold spawnPipeline
  simp only [hpipes, hff]
  simp

theorem spawnPipeline_background (st : ShellState) (spg : Int) (os : OsRun)
    (cmds : List Command) (raw : String) (p0 : Int)
    (hne : cmds ≠ [])
    (hpipes : pipesOk os.pipeOk (cmds.length - 1) = true)
    (hforks : (forkLoop os.forkPid 0 cmds.length []).2 = true)
    (hp0 : os.forkPid 0 = some p0) :
    spawnPipeline st spg os cmds true raw
      = ⟨{ st with jobs := st.jobs ++ [⟨st.next_jid, p0, raw, .RUNNING⟩],
                   next_jid := st.next_jid + 1 },
         (forkLoop os.forkPid 0 cmds.length []).1.map (fun c => Action.setpgidA c p0) ++
           [Action.printStarted st.next_jid p0],
         0, os.waits⟩ := by
  have hn : 0 < cmds.length := List.length_pos.mpr hne
  obtain ⟨tl, htl⟩ := forkLoop_head os.forkPid cmds.length p0 hp0 hn
  unfold spawnPipeline
  simp only [hpipes, hforks, htl]
  simp

theorem spawnPipeline_foreground (st : ShellState) (spg : Int) (os : OsRun)
    (cmds : List Command) (raw : String) (p0 : Int)
    (hne : cmds ≠ [])
    (hpipes : pipesOk os.pipeOk (cmds.length - 1) = true)
    (hforks : (forkLoop os.forkPid 0 cmds.length []).2 = true)
    (hp0 : os.forkPid 0 = some p0) :
    spawnPipeline st spg os cmds false raw
      = ⟨(fgWaitLoop st p0 raw os.waits).1,
         (forkLoop os.forkPid 0 cmds.length []).1.map (fun c => Action.setpgidA c p0) ++
           [Action.tcsetpgrpA p0] ++ (fgWaitLoop st p0 raw os.waits).2.1 ++
           [Action.tcsetpgrpA spg, Action.tcgetattrA],
         0, (fgWaitLoop st p0 raw os.waits).2.2⟩ := by
  have hn : 0 < cmds.length := List.length_pos.mpr hne
  obtain ⟨tl, htl⟩ := forkLoop_head os.forkPid cmds.length p0 hp0 hn
  unfold spawnPipeline
  simp only [hpipes, hforks, htl]
  simp

theorem countP_map_zero {α : Type} (p : Action → Bool) (f : α → Action)
    (h : ∀ a, p (f a) = false) (l : List α) : (l.map f).countP p = 0 := by
  induction l with
  | nil => simp
  | cons x xs ih => simp [List.countP_cons, h, ih]

theorem countP_fgWait_zero (pgid : Int) (raw : String) (waits : List WaitRes)
    (st : ShellState) (p : Action → Bool)
    (hw : ∀ g, p (Action.waitGroupA g) = false)
    (hs : ∀ a b c, p (Action.printStoppedNotice a b c) = false) :
    ((fgWaitLoop st pgid raw waits).2.1).countP p = 0 := by
  apply List.countP_eq_zero.mpr
  intro a ha
  rcases fgWaitLoop_acts_shape pgid raw waits st a ha with h | ⟨jid, h⟩
  · subst h; simp [hw]
  · subst h; simp [hs]

/-- C2.  A pipeline launched with the background flag set (and whose pipes
and forks succeed) registers exactly one new Job whose status is Running
at registration, prints exactly one started notice carrying the assigned
job id and the group id, and returns 0 without performing any blocking
wait on the group (its wait trace is untouched). -/
theorem c2_background_launch (st : ShellState) (spg : Int) (os : OsRun)
    (cmds : List Command) (raw : String) (p0 : Int)
    (hne : cmds ≠ [])
    (hpipes : pipesOk os.pipeOk (cmds.length - 1) = true)
    (hforks : (forkLoop os.forkPid 0 cmds.length []).2 = true)
    (hp0 : os.forkPid 0 = some p0) :
    (runPipeline st spg os cmds true raw).st.jobs
        = st.jobs ++ [⟨st.next_jid, p0, raw, .RUNNING⟩]
    ∧ (runPipeline st spg os cmds true raw).st.next_jid = st.next_jid + 1
    ∧ (runPipeline st spg os cmds true raw).acts.countP isStartedNotice = 1
    ∧ Action.printStarted st.next_jid p0 ∈ (runPipeline st spg os cmds true raw).acts
    ∧ (runPipeline st spg os cmds true raw).acts.countP isWaitA = 0
    ∧ (runPipeline st spg os cmds true raw).ret = 0
    ∧ (runPipeline st spg os cmds true raw).waitsLeft = os.waits := by
  rw [runPipeline_spawn st spg os cmds true raw hne (inlineBuiltin_background cmds),
    spawnPipeline_background st spg os cmds raw p0 hne hpipes hforks hp0]
  refine ⟨rfl, rfl, ?_, ?_, ?_, rfl, rfl⟩
  · simp only [List.countP_append,
      countP_map_zero isStartedNotice (fun c => Action.setpgidA c p0)
        (fun a => by simp [isStartedNotice]) _]
    simp [List.countP_cons, isStartedNotice]
  · simp
  · simp only [List.countP_append,
      countP_map_zero isWaitA (fun c => Action.setpgidA c p0)
        (fun a => by simp [isWaitA]) _]
    simp [List.countP_cons, isWaitA]

/-- Witness for C2: `sleep 5 | cat &` launched from a fresh state (shell
group 10, children 100 and 101). -/
theorem c2_witness :
    (runPipeline st1 10 os1 cmds1 true "sleep 5 | cat &").st.jobs
        = [⟨1, 100, "sleep 5 | cat &", .RUNNING⟩]
    ∧ (runPipeline st1 10 os1 cmds1 true "sleep 5 | cat &").acts.countP isStartedNotice = 1
    ∧ (runPipeline st1 10 os1 cmds1 true "sleep 5 | cat &").acts.countP isWaitA = 0 :=
  ⟨(c2_background_launch st1 10 os1 cmds1 "sleep 5 | cat &" 100 (by decide) (by decide)
      (by decide) (by decide)).1,
   (c2_background_launch st1 10 os1 cmds1 "sleep 5 | cat &" 100 (by decide) (by decide)
      (by decide) (by decide)).2.2.1,
   (c2_background_launch st1 10 os1 cmds1 "sleep 5 | cat &" 100 (by decide) (by decide)
      (by decide) (by decide)).2.2.2.2.1⟩

/-- C1.  In the foreground path of the executor (pipes and forks succeed,
inline builtin not applicable, job group distinct from the shell's), the
terminal is given back to the shell's own group exactly once on every exit
path of the wait; and whenever the wait trace reports a member stopped
after only exits/retries, exactly one new Job is registered, with the next
fresh id and status Stopped, exactly one stopped notice is printed, and
the wait stops consuming the trace at that point, leaving the remaining
events (unreaped members) unconsumed. -/
theorem c1_foreground_stop (st : ShellState) (spg : Int) (os : OsRun)
    (cmds : List Command) (raw : String) (p0 : Int)
    (hib : inlineBuiltin cmds false = none)
    (hne : cmds ≠ [])
    (hpipes : pipesOk os.pipeOk (cmds.length - 1) = true)
    (hforks : (forkLoop os.forkPid 0 cmds.length []).2 = true)
    (hp0 : os.forkPid 0 = some p0)
    (hps : p0 ≠ spg) :
    (runPipeline st spg os cmds false raw).acts.countP (isTcsetTo spg) = 1
    ∧ (∀ pre rest, os.waits = pre ++ WaitRes.stopped :: rest →
        (∀ e ∈ pre, e = WaitRes.exited ∨ e = WaitRes.eintr) →
        (runPipeline st spg os cmds false raw).st.jobs
            = st.jobs ++ [⟨st.next_jid, p0, raw, .STOPPED⟩]
        ∧ (runPipeline st spg os cmds false raw).st.next_jid = st.next_jid + 1
        ∧ (runPipeline st spg os cmds false raw).acts.countP isStoppedNotice = 1
        ∧ (runPipeline st spg os cmds false raw).waitsLeft = rest) := by
  rw [runPipeline_spawn st spg os cmds false raw hne hib,
    spawnPipeline_foreground st spg os cmds raw p0 hne hpipes hforks hp0]
  constructor
  · simp only [List.countP_append,
      countP_map_zero (isTcsetTo spg) (fun c => Action.setpgidA c p0)
        (fun a => by simp [isTcsetTo]) _,
      countP_fgWait_zero p0 raw os.waits st (isTcsetTo spg)
        (fun g => by simp [isTcsetTo]) (fun a b c => by simp [isTcsetTo])]
    simp [List.countP_cons, isTcsetTo, hps]
  · intro pre rest hsplit hpre
    rw [hsplit, fgWaitLoop_stop_path p0 raw pre hpre st rest]
    refine ⟨rfl, rfl, ?_, rfl⟩
    simp only [List.countP_append,
      countP_map_zero isStoppedNotice (fun c => Action.setpgidA c p0)
        (fun a => by simp [isStoppedNotice]) _,
      countP_map_zero isStoppedNotice (fun _ => Action.waitGroupA p0)
        (fun a => by simp [isStoppedNotice]) _]
    simp [List.countP_cons, isStoppedNotice]

/-- Witness for C1: `sleep 5 | cat` in the foreground from a fresh state;
the wait trace reports one exit, then a stop, then one more (unconsumed)
exit. -/
theorem c1_witness :
    (runPipeline st1 10 os1 cmds1 false "sleep 5 | cat").acts.countP (isTcsetTo 10) = 1
    ∧ (runPipeline st1 10 os1 cmds1 false "sleep 5 | cat").st.jobs
        = [⟨1, 100, "sleep 5 | cat", .STOPPED⟩]
    ∧ (runPipeline st1 10 os1 cmds1 false "sleep 5 | cat").st.next_jid = 2
    ∧ (runPipeline st1 10 os1 cmds1 false "sleep 5 | cat").acts.countP isStoppedNotice = 1
    ∧ (runPipeline st1 10 os1 cmds1 false "sleep 5 | cat").waitsLeft = [WaitRes.exited] :=
  ⟨(c1_foreground_stop st1 10 os1 cmds1 "sleep 5 | cat" 100 (by decide) (by decide)
      (by decide) (by decide) (by decide) (by decide)).1,
   (c1_foreground_stop st1 10 os1 cmds1 "sleep 5 | cat" 100 (by decide) (by decide)
      (by decide) (by decide) (by decide) (by decide)).2
     [WaitRes.exited] [WaitRes.exited] rfl (by decide)⟩

/-- C9.  If pipe creation fails, `runPipeline` reports a diagnostic naming
the failing operation (`perror("pipe")`), aborts with -1 and changes no
shell state and spawns nothing; if a fork fails partway, it reports
`perror("fork")`, aborts with -1, changes no shell state, and sends a
termination signal toward every already-created pid of the attempted
pipeline (each of which was put into the group of the first created pid,
which is among the signalled targets). -/
theorem c9_resource_failure_cleanup (st : ShellState) (spg : Int) (os : OsRun)
    (cmds : List Command) (background : Bool) (raw : String)
    (hib : inlineBuiltin cmds background = none)
    (hne : cmds ≠ []) :
    (pipesOk os.pipeOk (cmds.length - 1) = false →
      runPipeline st spg os cmds background raw
        = ⟨st, [Action.perrorA "pipe"], -1, os.waits⟩)
    ∧ (pipesOk os.pipeOk (cmds.length - 1) = true →
       (forkLoop os.forkPid 0 cmds.length []).2 = false →
        (runPipeline st spg os cmds background raw).ret = -1
        ∧ (runPipeline st spg os cmds background raw).st = st
        ∧ Action.perrorA "fork" ∈ (runPipeline st spg os cmds background raw).acts
        ∧ (∀ c ∈ (forkLoop os.forkPid 0 cmds.length []).1,
            Action.setpgidA c ((forkLoop os.forkPid 0 cmds.length []).1.headD 0)
                ∈ (runPipeline st spg os cmds background raw).acts
            ∧ Action.killGroupA c "SIGTERM"
                ∈ (runPipeline st spg os cmds background raw).acts)
        ∧ ((forkLoop os.forkPid 0 cmds.length []).1 ≠ [] →
            Action.killGroupA ((forkLoop os.forkPid 0 cmds.length []).1.headD 0) "SIGTERM"
                ∈ (runPipeline st spg os cmds background raw).acts)) := by
  constructor
  · intro hpf
    rw [runPipeline_spawn st spg os cmds background raw hne hib,
      spawnPipeline_pipe_fail st spg os cmds background raw hpf]
  · intro hpipes hff
    rw [runPipeline_spawn st spg os cmds background raw hne hib,
      spawnPipeline_fork_fail st spg os cmds background raw hpipes hff]
    refine ⟨rfl, rfl, by simp, ?_, ?_⟩
    · intro c hc
      constructor
      · simp only [List.mem_append]
        exact Or.inl (Or.inl (List.mem_map.mpr ⟨c, hc, rfl⟩))
      · simp only [List.mem_append]
        exact Or.inr (List.mem_map.mpr ⟨c, hc, rfl⟩)
    · intro hnil
      rcases hhead : (forkLoop os.forkPid 0 cmds.length []).1 with _ | ⟨c0, tl⟩
      · exact absurd hhead hnil
      · simp only [List.mem_append]
        refine Or.inr (List.mem_map.mpr ⟨c0, ?_, ?_⟩)
        · simp
        · simp

/-- Witness for C9: the pipe-failure branch with `osPF` and the
fork-failure branch with `osFF` (first child 100 created, second fork
fails; pid 100 is the group leader and is sent SIGTERM). -/
theorem c9_witness :
    runPipeline st1 10 osPF cmds1 false "sleep 5 | cat"
      = ⟨st1, [Action.perrorA "pipe"], -1, osPF.waits⟩
    ∧ (runPipeline st1 10 osFF cmds1 false "sleep 5 | cat").ret = -1
    ∧ Action.perrorA "fork" ∈ (runPipeline st1 10 osFF cmds1 false "sleep 5 | cat").acts
    ∧ Action.killGroupA 100 "SIGTERM"
        ∈ (runPipeline st1 10 osFF cmds1 false "sleep 5 | cat").acts :=
  ⟨(c9_resource_failure_cleanup st1 10 osPF cmds1 false "sleep 5 | cat" (by decide)
      (by decide)).1 (by decide),
   ((c9_resource_failure_cleanup st1 10 osFF cmds1 false "sleep 5 | cat" (by decide)
      (by decide)).2 (by decide) (by decide)).1,
   ((c9_resource_failure_cleanup st1 10 osFF cmds1 false "sleep 5 | cat" (by decide)
      (by decide)).2 (by decide) (by decide)).2.2.1,
   (((c9_resource_failure_cleanup st1 10 osFF cmds1 false "sleep 5 | cat" (by decide)
      (by decide)).2 (by decide) (by decide)).2.2.2.1 100 (by decide)).2⟩

theorem find_job_by_pid_pg_none (jobs : List Job) (pg : Int → Option Int) (pid : Int)
    (h : pg pid = none) : find_job_by_pid jobs pg pid = none := by
  unfold find_job_by_pid
  rw [h]

theorem update_jobs_unresolved (pg : Int → Option Int) :
    ∀ (events : List (Int × ReapKind)) (st : ShellState),
      (∀ e ∈ events, pg e.1 = none) →
      (update_jobs pg st events).st.jobs = st.jobs
      ∧ (update_jobs pg st events).acts = [] := by
  intro events
  induction events with
  | nil => intro st _; rw [update_jobs_nil]; exact ⟨rfl, rfl⟩
  | cons e rest ih =>
    intro st hall
    obtain ⟨pid, k⟩ := e
    have hpg : pg pid = none := hall (pid, k) (by simp)
    rw [update_jobs_skip pg st pid k rest (find_job_by_pid_pg_none st.jobs pg pid hpg)]
    exact ih st (fun e he => hall e (by simp [he]))

theorem fgbgCommand_fg_some (st : ShellState) (spg : Int) (pg : Int → Option Int)
    (ga : Int → Bool) (killOk : Bool) (arg : Option String) (waits : List WaitRes)
    (j : Job) (hj : resolveTarget st.jobs pg arg = some j) :
    (fgbgCommand FgBg.fg st spg pg ga killOk arg waits).1
      = (if ga j.pgid then (fgWaitLoopTarget st j waits).1
        else { (fgWaitLoopTarget st j waits).1 with jobs := remove_job_by_pgid (fgWaitLoopTarget st j waits).1.jobs j.pgid }) := by
  rw [fgbgCommand.eq_def]; simp only [hj]

/-- Counterexample for C4.  Background job [1] of group 100 whose two
members (pids 101 and 102) have both exited: the draining pass reaps both,
but a reaped pid no longer exists, so `getpgid` fails (ESRCH — oracle
`pgDead`), `find_job_by_pid` matches nothing, and both exited reaps are
silently skipped.  The job is still in the Job Table (and no done line was
printed) although every member of its process group has exited — refuting
"removed from the Job Table if and only if every member of its process
group has exited". -/
theorem c4_counterexample :
    (update_jobs pgDead ⟨[⟨1, 100, "sleep 1 | sleep 1 &", .RUNNING⟩], 2, true⟩
        [((101 : Int), ReapKind.exited), ((102 : Int), ReapKind.exited)]).st.jobs
      = [⟨1, 100, "sleep 1 | sleep 1 &", .RUNNING⟩]
    ∧ (update_jobs pgDead ⟨[⟨1, 100, "sleep 1 | sleep 1 &", .RUNNING⟩], 2, true⟩
        [((101 : Int), ReapKind.exited), ((102 : Int), ReapKind.exited)]).acts = []
    ∧ pgDead 101 = none ∧ pgDead 102 = none := by
  refine ⟨?_, ?_, rfl, rfl⟩ <;> decide

/-- C4 (amended).  A job registered as background has status Running (and
the next fresh id) at registration.  It is not removed by the reaping
Coordinator: a reaped pid no longer resolves to a group, and a draining
pass whose reaped pids all fail group resolution leaves the job table
unchanged and prints nothing — so a background job whose members have all
exited stays in the Job Table.  The entry is removed only by `fg`: after
its wait, the group-liveness probe (`kill(-pgid, 0)`) removes the job's
group entries exactly when it reports no member remaining, and keeps them
when the group is still alive. -/
theorem c4_amended_background_lifecycle (st : ShellState) (spg : Int) (os : OsRun)
    (cmds : List Command) (raw : String) (p0 : Int)
    (hne : cmds ≠ [])
    (hpipes : pipesOk os.pipeOk (cmds.length - 1) = true)
    (hforks : (forkLoop os.forkPid 0 cmds.length []).2 = true)
    (hp0 : os.forkPid 0 = some p0) :
    (∃ j : Job, (runPipeline st spg os cmds true raw).st.jobs = st.jobs ++ [j]
      ∧ j.status = .RUNNING ∧ j.jid = st.next_jid)
    ∧ (∀ (pg : Int → Option Int) (st2 : ShellState) (events : List (Int × ReapKind)),
        (∀ e ∈ events, pg e.1 = none) →
        (update_jobs pg st2 events).st.jobs = st2.jobs
        ∧ (update_jobs pg st2 events).acts = [])
    ∧ (∀ (pg : Int → Option Int) (st2 : ShellState) (spg2 : Int) (ga : Int → Bool)
        (killOk : Bool) (arg : Option String) (waits : List WaitRes) (j : Job),
        resolveTarget st2.jobs pg arg = some j →
        (ga j.pgid = false →
          (fgbgCommand FgBg.fg st2 spg2 pg ga killOk arg waits).1.jobs
            = remove_job_by_pgid (fgWaitLoopTarget st2 j waits).1.jobs j.pgid)
        ∧ (ga j.pgid = true →
          (fgbgCommand FgBg.fg st2 spg2 pg ga killOk arg waits).1.jobs
            = (fgWaitLoopTarget st2 j waits).1.jobs)) := by
  refine ⟨?_, ?_, ?_⟩
  · refine ⟨⟨st.next_jid, p0, raw, .RUNNING⟩, ?_, rfl, rfl⟩
    rw [runPipeline_spawn st spg os cmds true raw hne (inlineBuiltin_background cmds),
      spawnPipeline_background st spg os cmds raw p0 hne hpipes hforks hp0]
  · intro pg st2 events hall
    exact update_jobs_unresolved pg events st2 hall
  · intro pg st2 spg2 ga killOk arg waits j hj
    constructor
    · intro hga
      rw [fgbgCommand_fg_some st2 spg2 pg ga killOk arg waits j hj,
        if_neg (by simp [hga])]
    · intro hga
      rw [fgbgCommand_fg_some st2 spg2 pg ga killOk arg waits j hj,
        if_pos (by simp [hga])]

/-- Witness for C4 (amended): the background launch `sleep 5 | cat &` from
a fresh state; a draining pass over two reaped (dead) pids that leaves the
table unchanged; and an `fg` on the sole job whose liveness probe finds
the group gone, emptying the table. -/
theorem c4_witness :
    (∃ j : Job, (runPipeline st1 10 os1 cmds1 true "sleep 5 | cat &").st.jobs = [] ++ [j]
      ∧ j.status = .RUNNING ∧ j.jid = 1)
    ∧ (update_jobs pgDead ⟨[⟨1, 100, "c", .RUNNING⟩], 2, true⟩
        [((101 : Int), ReapKind.exited), ((102 : Int), ReapKind.exited)]).st.jobs
      = [⟨1, 100, "c", .RUNNING⟩]
    ∧ (fgbgCommand FgBg.fg ⟨[⟨1, 100, "c", .STOPPED⟩], 2, false⟩ 10 pgDead
        (fun _ => false) true none []).1.jobs = [] :=
  ⟨(c4_amended_background_lifecycle st1 10 os1 cmds1 "sleep 5 | cat &" 100 (by decide)
      (by decide) (by decide) (by decide)).1,
   ((c4_amended_background_lifecycle st1 10 os1 cmds1 "sleep 5 | cat &" 100 (by decide)
      (by decide) (by decide) (by decide)).2.1 pgDead ⟨[⟨1, 100, "c", .RUNNING⟩], 2, true⟩
      [((101 : Int), ReapKind.exited), ((102 : Int), ReapKind.exited)] (by decide)).1,
   ((c4_amended_background_lifecycle st1 10 os1 cmds1 "sleep 5 | cat &" 100 (by decide)
      (by decide) (by decide) (by decide)).2.2 pgDead ⟨[⟨1, 100, "c", .STOPPED⟩], 2, false⟩
      10 (fun _ => false) true none [] ⟨1, 100, "c", .STOPPED⟩ (by decide)).1 rfl⟩

theorem mainDispatch_cons (t : String) (r : List String) :
    mainDispatch (t :: r)
      = (if t = "jobs" then .builtinJobs
        else if t = "cd" then .builtinCd
        else if t = "exit" then .builtinExit
        else if t = "fg" ∨ t = "bg" then .builtinFgBg
        else .pipeline) := by
  rw [mainDispatch.eq_def]

/-- Counterexample for C5.  The line `cd /tmp | cat` contains a pipe token
yet its first token is a builtin name, and the main loop still dispatches
it as the `cd` builtin (executed in the shell process), contradicting
"recognized ... only when the builtin name is the first token of a
non-piped line". -/
theorem c5_counterexample :
    mainDispatch ["cd", "/tmp", "|", "cat"] = Dispatch.builtinCd
    ∧ "|" ∈ (["cd", "/tmp", "|", "cat"] : List String) := by
  constructor
  · rw [mainDispatch_cons]; decide
  · decide

/-- C5 (amended).  The main loop recognizes and executes the builtins
`jobs`, `cd`, `exit`, `fg`, `bg` in the shell process exactly when the
builtin name is the first token of the (background-stripped) line,
regardless of any pipe tokens later in the line: dispatch depends only on
the first token, and an empty token list goes to the pipeline path. -/
theorem c5_amended_dispatch_first_token :
    (∀ (t : String) (r : List String),
      mainDispatch (t :: r) ≠ Dispatch.pipeline
        ↔ (t = "jobs" ∨ t = "cd" ∨ t = "exit" ∨ t = "fg" ∨ t = "bg"))
    ∧ (∀ (t : String) (r1 r2 : List String), mainDispatch (t :: r1) = mainDispatch (t :: r2))
    ∧ mainDispatch [] = Dispatch.pipeline := by
  refine ⟨?_, ?_, by rw [mainDispatch.eq_def]⟩
  · intro t r
    rw [mainDispatch_cons]
    by_cases h1 : t = "jobs"
    · simp [h1]
    by_cases h2 : t = "cd"
    · simp [h1, h2]
    by_cases h3 : t = "exit"
    · simp [h1, h2, h3]
    by_cases h4 : t = "fg"
    · simp [h1, h2, h3, h4]
    by_cases h5 : t = "bg"
    · simp [h1, h2, h3, h4, h5]
    · simp [h1, h2, h3, h4, h5]
  · intro t r1 r2
    rw [mainDispatch_cons, mainDispatch_cons]

theorem update_jobs_clears_flag (pg : Int → Option Int) :
    ∀ (events : List (Int × ReapKind)) (st : ShellState),
      (update_jobs pg st events).st.child_terminated = false := by
  intro events
  induction events with
  | nil => intro st; rw [update_jobs_nil]
  | cons e rest ih =>
    intro st
    obtain ⟨pid, k⟩ := e
    cases hf : find_job_by_pid st.jobs pg pid with
    | none => rw [update_jobs_skip pg st pid k rest hf]; exact ih st
    | some j =>
      cases k with
      | exited => rw [update_jobs_exited pg st pid rest j hf]; exact ih _
      | stopped => rw [update_jobs_stopped pg st pid rest j hf]; exact ih _
      | continued => rw [update_jobs_continued pg st pid rest j hf]; exact ih _

/-- Counterexample for C6.  The handler is installed with `SA_NOCLDSTOP`
set (src/main.cpp line 356), so under the POSIX delivery rule a child's
stop or continue does *not* generate the SIGCHLD notification — the flag
is not set "whenever any child's state changes": stop and continue
transitions produce no notification. -/
theorem c6_counterexample :
    sigchldDelivered ReapKind.stopped = false
    ∧ sigchldDelivered ReapKind.continued = false
    ∧ sa_nocldstop = true := by
  decide

/-- C6 (amended).  The notification context only sets the async-safe flag
(touching neither the job table nor the id counter); a child exit or
termination does generate the notification (stop/continue do not, by
`SA_NOCLDSTOP`); the flag is polled once per main-loop iteration: when
clear, nothing is drained, and when set, the draining pass runs, surfaces
the pending stop/continue state changes it reaps, and finishes with the
flag cleared. -/
theorem c6_amended_flag_discipline (st : ShellState) (pg : Int → Option Int)
    (pending : List (Int × ReapKind)) :
    (sigchld_handler st).child_terminated = true
    ∧ (sigchld_handler st).jobs = st.jobs
    ∧ (sigchld_handler st).next_jid = st.next_jid
    ∧ sigchldDelivered ReapKind.exited = true
    ∧ (st.child_terminated = false → pollAndDrain pg st pending = ⟨st, []⟩)
    ∧ (st.child_terminated = true → pollAndDrain pg st pending = update_jobs pg st pending)
    ∧ (update_jobs pg st pending).st.child_terminated = false := by
  refine ⟨rfl, rfl, rfl, rfl, ?_, ?_, update_jobs_clears_flag pg pending st⟩
  · intro h; simp [pollAndDrain, h]
  · intro h; simp [pollAndDrain, h]

/-- Witness for C6 (amended) at a concrete state with the flag set and one
pending stopped child. -/
theorem c6_witness :
    pollAndDrain pgB ⟨[⟨1, 100, "c", .RUNNING⟩], 2, true⟩ [((101 : Int), ReapKind.stopped)]
      = update_jobs pgB ⟨[⟨1, 100, "c", .RUNNING⟩], 2, true⟩ [((101 : Int), ReapKind.stopped)]
    ∧ (update_jobs pgB ⟨[⟨1, 100, "c", .RUNNING⟩], 2, true⟩
        [((101 : Int), ReapKind.stopped)]).st.child_terminated = false :=
  ⟨(c6_amended_flag_discipline ⟨[⟨1, 100, "c", .RUNNING⟩], 2, true⟩ pgB
      [((101 : Int), ReapKind.stopped)]).2.2.2.2.2.1 rfl,
   (c6_amended_flag_discipline ⟨[⟨1, 100, "c", .RUNNING⟩], 2, true⟩ pgB
      [((101 : Int), ReapKind.stopped)]).2.2.2.2.2.2⟩

theorem resolveTarget_none (jobs : List Job) (pg : Int → Option Int) :
    resolveTarget jobs pg none = jobs.getLast? := by
  rw [resolveTarget.eq_def]

theorem resolveTarget_some (jobs : List Job) (pg : Int → Option Int)
    (t : String) (c : Char) (rest : List Char) (ht : t.data = c :: rest) :
    resolveTarget jobs pg (some t)
      = (if c = '%' then
          (if 0 < atoiL rest then find_job_by_jid jobs (atoiL rest) else none)
        else bareResolve jobs pg (c :: rest)) := by
  rw [resolveTarget.eq_def]; simp only [ht]

theorem resolveSpec_none (jobs : List Job) (pg : Int → Option Int) :
    resolveSpec jobs pg none = jobs.getLast? := by
  rw [resolveSpec.eq_def]

theorem resolveSpec_some (jobs : List Job) (pg : Int → Option Int)
    (t : String) (c : Char) (rest : List Char) (ht : t.data = c :: rest) :
    resolveSpec jobs pg (some t)
      = (if c = '%' then find_job_by_jid jobs (atoiL rest)
        else if allDigitsL (c :: rest) then
          (match find_job_by_jid jobs (atoiL (c :: rest)) with
          | some j => some j
          | none =>
            match find_job_by_pgid jobs (atoiL (c :: rest)) with
            | some j => some j
            | none => find_job_by_pid jobs pg (atoiL (c :: rest)))
        else none) := by
  rw [resolveSpec.eq_def]; simp only [ht]

theorem fgbgCommand_unresolved (which : FgBg) (st : ShellState) (spg : Int)
    (pg : Int → Option Int) (ga : Int → Bool) (killOk : Bool)
    (arg : Option String) (waits : List WaitRes)
    (hnone : resolveTarget st.jobs pg arg = none) :
    fgbgCommand which st spg pg ga killOk arg waits
      = (st, [Action.errNoSuchJob (fgbgName which)], waits) := by
  rw [fgbgCommand.eq_def]; simp only [hnone]

theorem find_job_by_jid_nonpos (jobs : List Job) (hjid : ∀ j ∈ jobs, 0 < j.jid)
    (v : Int) (hv : ¬ 0 < v) : find_job_by_jid jobs v = none := by
  unfold find_job_by_jid
  apply List.find?_eq_none.mpr
  intro j hj
  simp only [decide_eq_true_eq]
  intro heq
  exact hv (heq ▸ hjid j hj)

/-- C7.  On a table of positive job ids, the `fg`/`bg` target resolution of
the main loop agrees with the rule the specification states: no argument
defaults to the most recently registered job (the last table entry); a
`%n` argument resolves as the explicit job id `n`; a bare all-digit
argument with nonzero value is tried as a job id first, then as a
process-group id, then as a member-process id; and when no job resolves,
the handler reports "no such job" and returns with the shell state, the
job table, and the wait trace unchanged, performing no terminal or signal
action. -/
theorem c7_fgbg_resolution (jobs : List Job) (pg : Int → Option Int)
    (hjid : ∀ j ∈ jobs, 0 < j.jid) :
    resolveTarget jobs pg none = resolveSpec jobs pg none
    ∧ (∀ t : String, t.data.head? = some '%' →
        resolveTarget jobs pg (some t) = resolveSpec jobs pg (some t))
    ∧ (∀ t : String, allDigitsL t.data = true → atoiL t.data ≠ 0 →
        resolveTarget jobs pg (some t) = resolveSpec jobs pg (some t))
    ∧ (∀ (which : FgBg) (st : ShellState) (spg : Int) (ga : Int → Bool) (killOk : Bool)
        (arg : Option String) (waits : List WaitRes),
        resolveTarget st.jobs pg arg = none →
        fgbgCommand which st spg pg ga killOk arg waits
          = (st, [Action.errNoSuchJob (fgbgName which)], waits)) := by
  refine ⟨by rw [resolveTarget_none, resolveSpec_none], ?_, ?_, ?_⟩
  · intro t ht
    rcases hd : t.data with _ | ⟨c, rest⟩
    · rw [hd] at ht; simp at ht
    · have hc : c = '%' := by rw [hd] at ht; simpa using ht
      subst hc
      rw [resolveTarget_some jobs pg t '%' rest hd, resolveSpec_some jobs pg t '%' rest hd]
      simp only [if_pos rfl]
      by_cases hpos : 0 < atoiL rest
      · rw [if_pos hpos]; simp
      · rw [if_neg hpos, find_job_by_jid_nonpos jobs hjid (atoiL rest) hpos]; simp
  · intro t hdig hnz
    rcases hd : t.data with _ | ⟨c, rest⟩
    · rw [hd] at hnz; exact absurd (by decide) hnz
    · rw [hd] at hdig hnz
      have hc : c ≠ '%' := by
        intro hceq
        subst hceq
        simp only [allDigitsL, List.all_cons, Bool.and_eq_true, decide_eq_true_eq] at hdig
        exact absurd hdig.1 (by decide)
      rw [resolveTarget_some jobs pg t c rest hd, resolveSpec_some jobs pg t c rest hd,
        if_neg hc, if_neg hc, if_pos hdig]
      unfold bareResolve
      rw [if_pos hdig]
      cases hfind : find_job_by_jid jobs (atoiL (c :: rest)) with
      | some j => simp only [hfind]
      | none =>
        simp only [hfind]
        rw [if_pos hnz]
  · intro which st spg ga killOk arg waits hnone
    exact fgbgCommand_unresolved which st spg pg ga killOk arg waits hnone

/-- Witness for C7 on a concrete two-job table (ids 1 and 2, groups 100 and
200, process 205 a member of group 200): default reference, `%1`, the bare
numeric `205` (resolving via group membership), and the unresolvable `7`
reported as "no such job" with nothing changed. -/
theorem c7_witness :
    resolveTarget jtab pgA none = resolveSpec jtab pgA none
    ∧ resolveTarget jtab pgA (some "%1") = resolveSpec jtab pgA (some "%1")
    ∧ resolveTarget jtab pgA (some "205") = resolveSpec jtab pgA (some "205")
    ∧ fgbgCommand FgBg.bg ⟨jtab, 3, false⟩ 10 pgA (fun _ => true) true (some "7") []
        = (⟨jtab, 3, false⟩, [Action.errNoSuchJob "bg"], []) :=
  ⟨(c7_fgbg_resolution jtab pgA (by decide)).1,
   (c7_fgbg_resolution jtab pgA (by decide)).2.1 "%1" (by decide),
   (c7_fgbg_resolution jtab pgA (by decide)).2.2.1 "205" (by decide) (by decide),
   (c7_fgbg_resolution jtab pgA (by decide)).2.2.2 FgBg.bg ⟨jtab, 3, false⟩ 10
     (fun _ => true) true (some "7") [] (by decide)⟩

end Shell
